import Mathlib

/-!
Shallow embedding of the chess-engine companion service
(`stockfish-service`): the process supervisor / response matcher
(`StockfishProcess`), the output parser (`UciParser.parseAnalysis`), the
request-validation schema (`AnalysisRequestSchema`) and the HTTP handlers
(`analyzeHandler`, `healthHandler`).

String-valued JavaScript operations are modelled character-exactly:
`String.prototype.match` with the specific regular expressions used by the
source is modelled as leftmost-occurrence scanning (so, e.g., `/depth\s+(\d+)/`
matches inside `"seldepth 14"`, and `/pv\s+(.+)/` matches inside
`"multipv 2 …"`, exactly as in JavaScript).
-/

/-- Value of a digit run, most significant digit first (models `parseInt`). -/
def digitsVal (ds : List Char) : Nat :=
  ds.foldl (fun acc c => acc * 10 + (c.toNat - 48)) 0

/-- Strip a literal pattern from the front of a character list; `some rest`
when the pattern is a leading run, else `none`. -/
def stripLit : List Char → List Char → Option (List Char)
  | [], rest => some rest
  | _ :: _, [] => none
  | k :: ks, c :: cs => if c = k then stripLit ks cs else none

/-- Model of the regex fragment `\s+(\d+)`: at least one whitespace character,
then a maximal nonempty digit run, returning its value. -/
def wsNum (cs : List Char) : Option Nat :=
  if (cs.takeWhile Char.isWhitespace).isEmpty then none
  else
    let rest := cs.dropWhile Char.isWhitespace
    let ds := rest.takeWhile Char.isDigit
    if ds.isEmpty then none else some (digitsVal ds)

/-- Leftmost-occurrence scan: try the literal pattern `kw` followed by the
continuation `f` at every position, left to right (models an unanchored
JavaScript regex search). -/
def scanFor (kw : List Char) (f : List Char → Option α) : List Char → Option α
  | [] => (stripLit kw []).bind f
  | c :: cs =>
    match (stripLit kw (c :: cs)).bind f with
    | some v => some v
    | none => scanFor kw f cs

/-- Model of `line.match(/kw\s+(\d+)/)` for a literal keyword `kw`. -/
def matchKwNum (kw : String) (s : String) : Option Nat :=
  scanFor kw.data wsNum s.data

/-- Score kind of a UCI evaluation, as in the service's `Evaluation` type. -/
inductive EvalType
  | cp
  | mate
deriving DecidableEq, Repr

/-- Model of the regex fragment `\s+(-?\d+)`. -/
def wsSignedInt (cs : List Char) : Option Int :=
  if (cs.takeWhile Char.isWhitespace).isEmpty then none
  else
    match cs.dropWhile Char.isWhitespace with
    | '-' :: ds =>
      let digs := ds.takeWhile Char.isDigit
      if digs.isEmpty then none else some (-(digitsVal digs : Int))
    | ds =>
      let digs := ds.takeWhile Char.isDigit
      if digs.isEmpty then none else some ((digitsVal digs : Int))

/-- Continuation after the literal `score`: `\s+(cp|mate)\s+(-?\d+)`. -/
def scoreAfter (cs : List Char) : Option (EvalType × Int) :=
  if (cs.takeWhile Char.isWhitespace).isEmpty then none
  else
    let rest := cs.dropWhile Char.isWhitespace
    match stripLit "cp".data rest with
    | some r2 => (wsSignedInt r2).map (fun v => (EvalType.cp, v))
    | none =>
      match stripLit "mate".data rest with
      | some r2 => (wsSignedInt r2).map (fun v => (EvalType.mate, v))
      | none => none

/-- Model of `line.match(/score\s+(cp|mate)\s+(-?\d+)/)`. -/
def matchScore (s : String) : Option (EvalType × Int) :=
  scanFor "score".data scoreAfter s.data

/-- Continuation after the literal `bestmove`:
`\s+(\S+)(?:\s+ponder\s+(\S+))?`. -/
def bestmoveAfter (cs : List Char) : Option (String × Option String) :=
  if (cs.takeWhile Char.isWhitespace).isEmpty then none
  else
    let r1 := cs.dropWhile Char.isWhitespace
    let mv := r1.takeWhile (fun c => ¬ c.isWhitespace)
    if mv.isEmpty then none
    else
      let r2 := r1.dropWhile (fun c => ¬ c.isWhitespace)
      let pond :=
        if (r2.takeWhile Char.isWhitespace).isEmpty then none
        else
          match stripLit "ponder".data (r2.dropWhile Char.isWhitespace) with
          | none => none
          | some r4 =>
            if (r4.takeWhile Char.isWhitespace).isEmpty then none
            else
              let r5 := r4.dropWhile Char.isWhitespace
              let pm := r5.takeWhile (fun c => ¬ c.isWhitespace)
              if pm.isEmpty then none else some (String.mk pm)
      some (String.mk mv, pond)

/-- Model of `line.match(/bestmove\s+(\S+)(?:\s+ponder\s+(\S+))?/)`. -/
def matchBestmove (s : String) : Option (String × Option String) :=
  scanFor "bestmove".data bestmoveAfter s.data

/-- Continuation after the literal `pv`: `\s+(.+)`, with JavaScript
backtracking semantics (when everything after the whitespace run is empty the
greedy `\s+` gives one whitespace character back to `(.+)`). -/
def pvAfter (cs : List Char) : Option String :=
  let k := (cs.takeWhile Char.isWhitespace).length
  if k = 0 then none
  else
    let rest := cs.drop k
    if rest.isEmpty then
      if 2 ≤ k then some (String.mk (cs.drop (k - 1))) else none
    else some (String.mk rest)

/-- Model of `line.match(/pv\s+(.+)/)`, returning the capture. -/
def matchPvCapture (s : String) : Option String :=
  scanFor "pv".data pvAfter s.data

/-- Model of `line.match(/id name (.+)/)`, returning the capture. -/
def matchIdName (s : String) : Option String :=
  scanFor "id name ".data (fun cs => if cs.isEmpty then none else some (String.mk cs)) s.data

/-- Split a character list at every character satisfying `p`, keeping empty
segments (the shape of JavaScript `String.prototype.split`). -/
def splitWhen (p : Char → Bool) : List Char → List (List Char)
  | [] => [[]]
  | c :: cs =>
    let r := splitWhen p cs
    if p c then [] :: r
    else
      match r with
      | [] => [[c]]
      | h :: t => (c :: h) :: t

/-- Model of JavaScript `s.split(sep)` for a single-character separator. -/
def splitOnChar (sep : Char) : List Char → List (List Char) :=
  splitWhen (fun c => c = sep)

/-- Drop whitespace from both ends of a character list. -/
def trimChars (cs : List Char) : List Char :=
  ((cs.dropWhile Char.isWhitespace).reverse.dropWhile Char.isWhitespace).reverse

/-- Model of JavaScript `s.trim()`. -/
def jsTrim (s : String) : String :=
  String.mk (trimChars s.data)

/-- Model of JavaScript `s.startsWith(pre)`. -/
def jsStartsWith (s pre : String) : Bool :=
  (stripLit pre.data s.data).isSome

/-- Model of JavaScript `s.toLowerCase()` (ASCII letters, which is all the
service ever compares). -/
def jsToLower (s : String) : String :=
  String.mk (s.data.map Char.toLower)

/-- Model of JavaScript `arr.join(sep)`. -/
def jsJoin (sep : String) : List String → String
  | [] => ""
  | [x] => x
  | x :: y :: xs => x ++ sep ++ jsJoin sep (y :: xs)

/-- Model of `line.split(' ')[0]`. -/
def firstWordOf (line : String) : String :=
  String.mk ((splitOnChar ' ' line.data).headD [])

/-- Line extraction in `StockfishProcess.handleOutput`:
`output.split('\n').map(trim).filter(nonempty)`. -/
def svcLines (output : String) : List String :=
  (((splitOnChar '\n' output.data).map trimChars).filter (fun l => ¬ l.isEmpty)).map String.mk

/-- Line extraction in `UciParser.parseAnalysis`:
`output.split('\n').filter((line) => line.trim())` — note the lines themselves
are kept untrimmed. -/
def parserLines (output : String) : List String :=
  (((splitOnChar '\n' output.data).filter (fun l => ¬ (trimChars l).isEmpty))).map String.mk

/-- Model of `capture.trim().split(/\s+/)` (JavaScript returns `[""]` when the
trimmed string is empty). -/
def jsTrimSplitWs (s : String) : List String :=
  let t := trimChars s.data
  if t.isEmpty then [""]
  else ((splitWhen Char.isWhitespace t).filter (fun x => ¬ x.isEmpty)).map String.mk

/-! ## Output parser (`UciParser.parseAnalysis`) -/

/-- An evaluation as in the service's `types.ts` (`cp` or `mate` with a
signed value). -/
structure Evaluation where
  type : EvalType
  value : Int
deriving DecidableEq, Repr

/-- One principal-variation line of the response. -/
structure PvLine where
  pv : List String
  eval : Evaluation
deriving DecidableEq, Repr

/-- Search statistics of the response. -/
structure EngineStatistics where
  depth : Nat
  selDepth : Option Nat
  nodes : Nat
  nps : Nat
deriving DecidableEq, Repr

/-- The structured analysis response returned over HTTP. -/
structure AnalysisResponse where
  bestMove : String
  ponder : Option String
  evaluation : Evaluation
  lines : List PvLine
  statistics : EngineStatistics
  timingMs : Nat
deriving DecidableEq, Repr

namespace UciParser

/-- Mutable scan state of `parseAnalysis`, one field per local variable of the
source function.  `linesMap` models the JavaScript `Map<number, PvLine>` as an
insertion-ordered association list. -/
structure ParseState where
  bestMove : String
  ponder : String
  evaluation : Evaluation
  linesMap : List (Nat × PvLine)
  depth : Nat
  selDepth : Nat
  nodes : Nat
  nps : Nat
deriving DecidableEq, Repr

/-- Initial values of the local variables of `parseAnalysis`. -/
def initParseState : ParseState :=
  { bestMove := "", ponder := "", evaluation := ⟨EvalType.cp, 0⟩,
    linesMap := [], depth := 0, selDepth := 0, nodes := 0, nps := 0 }

/-- Model of `Map.prototype.set`: overwrite in place when the key exists
(keeping its insertion position), append otherwise. -/
def mapSet (m : List (Nat × PvLine)) (k : Nat) (v : PvLine) : List (Nat × PvLine) :=
  if m.any (fun p => p.1 = k) then m.map (fun p => if p.1 = k then (k, v) else p)
  else m ++ [(k, v)]

/-- One iteration of the scan loop of `parseAnalysis`. -/
def processParseLine (st : ParseState) (line : String) : ParseState :=
  if jsStartsWith line "bestmove" then
    match matchBestmove line with
    | some (mv, pond) =>
      { st with bestMove := mv,
                ponder := match pond with | some p => p | none => st.ponder }
    | none => st
  else if jsStartsWith line "info" then
    let d := match matchKwNum "depth" line with | some n => max st.depth n | none => st.depth
    let sd := match matchKwNum "seldepth" line with | some n => max st.selDepth n | none => st.selDepth
    let nd := match matchKwNum "nodes" line with | some n => max st.nodes n | none => st.nodes
    let np := match matchKwNum "nps" line with | some n => max st.nps n | none => st.nps
    let ev := match matchScore line with | some (t, v) => (⟨t, v⟩ : Evaluation) | none => st.evaluation
    let mpv := match matchKwNum "multipv" line with | some n => n | none => 1
    let lm := match matchPvCapture line with
      | some cap => mapSet st.linesMap mpv ⟨jsTrimSplitWs cap, ev⟩
      | none => st.linesMap
    { st with depth := d, selDepth := sd, nodes := nd, nps := np,
              evaluation := ev, linesMap := lm }
  else st

/-- State of the scan loop after processing all lines of the raw output. -/
def parseStateOf (output : String) : ParseState :=
  (parserLines output).foldl processParseLine initParseState

/-- Ascending insertion by key, used to model
`Array.from(map.entries()).sort(([a],[b]) => a - b)`. -/
def insertByKey (p : Nat × PvLine) : List (Nat × PvLine) → List (Nat × PvLine)
  | [] => [p]
  | q :: rest => if p.1 ≤ q.1 then p :: q :: rest else q :: insertByKey p rest

/-- Sort the multi-PV map entries ascending by key. -/
def sortByKey (m : List (Nat × PvLine)) : List (Nat × PvLine) :=
  m.foldr insertByKey []

/-- The whole of `UciParser.parseAnalysis`. -/
def parseAnalysis (output : String) (timingMs : Nat) : AnalysisResponse :=
  let st := parseStateOf output
  let arr := (sortByKey st.linesMap).map (fun p => p.2)
  let arr2 :=
    if arr.isEmpty && !(st.bestMove == "") then [⟨[st.bestMove], st.evaluation⟩] else arr
  { bestMove := st.bestMove,
    ponder := if st.ponder == "" then none else some st.ponder,
    evaluation := st.evaluation,
    lines := arr2,
    statistics :=
      { depth := st.depth,
        selDepth := if 0 < st.selDepth then some st.selDepth else none,
        nodes := st.nodes, nps := st.nps },
    timingMs := timingMs }

/-- The latest score seen while scanning the raw text: the value of the last
`score (cp|mate) n` match on a line starting with `info`, defaulting to
`cp 0`.  This is the reference value the `evaluation` variable of
`parseAnalysis` tracks. -/
def lastScore (output : String) : Evaluation :=
  (parserLines output).foldl
    (fun acc line =>
      if jsStartsWith line "bestmove" then acc
      else if jsStartsWith line "info" then
        match matchScore line with
        | some (t, v) => ⟨t, v⟩
        | none => acc
      else acc)
    ⟨EvalType.cp, 0⟩

end UciParser

/-! ## Process supervisor and response matcher (`StockfishProcess`) -/

namespace StockfishProcess

/-- One entry of the `messageQueue`: the literal command text plus an identity
tag standing for the promise callbacks of the source's `StockfishMessage`. -/
structure StockfishMessage where
  command : String
  msgId : Nat
deriving DecidableEq, Repr

/-- The match rules of `handleOutput`: does the pending command `command`
match the output line `line` whose first word is `firstWord`? -/
def matchesLine (command line firstWord : String) : Bool :=
  if command == "uci" && line == "uciok" then true
  else if command == "isready" && line == "readyok" then true
  else if jsStartsWith command "go" && firstWord == "bestmove" then true
  else if command == "quit" then true
  else false

/-- The inner loop of `handleOutput` for one line: the source iterates the
queue downward from the last index and resolves the first match found, so
this scans the reversed queue front to back.  Returns the remaining reversed
queue and the resolved message, if any. -/
def scanResolveRev : List StockfishMessage → String → List StockfishMessage × Option StockfishMessage
  | [], _ => ([], none)
  | m :: rest, line =>
    if matchesLine m.command line (firstWordOf line) then (rest, some m)
    else
      let r := scanResolveRev rest line
      (m :: r.1, r.2)

/-- Queue scan of `handleOutput` for one output line: the downward `for`
loop over `messageQueue`, with `splice` removal and `break` after the first
(that is, most recently enqueued) match. -/
def scanResolve (queue : List StockfishMessage) (line : String) :
    List StockfishMessage × Option StockfishMessage :=
  let r := scanResolveRev queue.reverse line
  (r.1.reverse, r.2)

/-- Observable state of a `StockfishProcess` while output is handled:
the pending queue, the analysis accumulation buffer, plus a log of the
resolutions performed (message, value passed to its `resolve`). -/
structure EngineOut where
  messageQueue : List StockfishMessage
  currentAnalysis : String
  resolvedLog : List (StockfishMessage × String)
deriving DecidableEq, Repr

/-- Body of the per-line part of `handleOutput`: scan the queue for a match,
log the resolution, and accumulate `info`/`bestmove` lines into
`currentAnalysis`. -/
def processOutLine (st : EngineOut) (line : String) : EngineOut :=
  let fw := firstWordOf line
  let r := scanResolve st.messageQueue line
  { messageQueue := r.1,
    currentAnalysis :=
      if fw == "info" || fw == "bestmove" then st.currentAnalysis ++ line ++ "\n"
      else st.currentAnalysis,
    resolvedLog :=
      match r.2 with
      | some m => st.resolvedLog ++ [(m, line)]
      | none => st.resolvedLog }

/-- The whole of `handleOutput` on one stdout chunk. -/
def handleOutput (st : EngineOut) (output : String) : EngineOut :=
  (svcLines output).foldl processOutLine st

/-- Supervisor-level state touched by the `'exit'` listener. -/
structure SupervisorState where
  isReady : Bool
  processAlive : Bool
  messageQueue : List StockfishMessage
deriving DecidableEq, Repr

/-- The `'exit'` listener of `initialize`: it only logs, sets
`isReady = false` and `process = null`.  The second component is the list of
pending commands it rejects — the listener rejects none. -/
def onProcessExit (s : SupervisorState) : SupervisorState × List StockfishMessage :=
  ({ isReady := false, processAlive := false, messageQueue := s.messageQueue }, [])

/-- Outcome of the timeout callback inside `sendCommand`. -/
structure TimeoutOutcome where
  queueAfter : List StockfishMessage
  rejectedError : Option String
  stdinWrites : List String
deriving DecidableEq, Repr

/-- The `setTimeout` callback of `sendCommand`: remove the first queue entry
whose command text matches (`findIndex` + `splice`), reject the caller with a
timeout error, and write nothing to the engine's stdin. -/
def onCommandTimeout (queue : List StockfishMessage) (command : String) : TimeoutOutcome :=
  let q :=
    match queue.findIdx? (fun m => m.command == command) with
    | some i => queue.eraseIdx i
    | none => queue
  { queueAfter := q,
    rejectedError := some ("Timeout waiting for response to: " ++ command),
    stdinWrites := [] }

/-- The queue effect of `sendCommand` before any response arrives: push the
new message at the back. -/
def sendCommandEnqueue (queue : List StockfishMessage) (command : String) (newId : Nat) :
    List StockfishMessage :=
  queue ++ [⟨command, newId⟩]

/-- Timeout passed to `sendCommand` for the `go` command in `analyze`:
`Math.max(30000, request.movetimeMs || 30000)`. -/
def goCommandTimeout (movetimeMs : Nat) : Nat :=
  max 30000 (if movetimeMs = 0 then 30000 else movetimeMs)

/-- The commands `initialize` awaits, with the timeouts it passes to
`sendCommand`. -/
def initCommands : List (String × Nat) :=
  [("uci", 5000), ("isready", 5000)]

/-- The scan in `getVersion` over the resolved response:
first `/id name (.+)/` capture, else `"Unknown"`. -/
def versionScan : List String → String
  | [] => "Unknown"
  | l :: rest =>
    match matchIdName l with
    | some v => v
    | none => versionScan rest

/-- The parsing half of `getVersion`: split the `sendCommand('uci')` result on
newlines and scan for `/id name (.+)/`. -/
def parseVersionFromResponse (response : String) : String :=
  versionScan ((splitOnChar '\n' response.data).map String.mk)

/-- The value the pending `uci` command is resolved with when the engine
writes `engineOutput`, starting from a queue holding only that command. -/
def uciResolutionValue (engineOutput : String) : Option String :=
  ((handleOutput ⟨[⟨"uci", 0⟩], "", []⟩ engineOutput).resolvedLog.head?).map (fun p => p.2)

end StockfishProcess

/-! ## HTTP layer: request validation (`types.ts`) and handlers -/

/-- A syntactically well-typed `POST /analyze` body: each schema field either
absent or present with the right primitive type (integer-valued numbers for
the three numeric fields, as `z.number().int()` demands). -/
structure RawBody where
  fen : Option String
  moves : Option (List String)
  depth : Option Int
  multiPV : Option Int
  movetimeMs : Option Int
deriving DecidableEq, Repr

/-- The parsed request produced by a successful `AnalysisRequestSchema`
validation, with the schema defaults filled in. -/
structure AnalysisRequest where
  fen : Option String
  moves : Option (List String)
  depth : Int
  multiPV : Int
  movetimeMs : Int
deriving DecidableEq, Repr

/-- Fields of the body rejected by `AnalysisRequestSchema`
(`depth: min 1 max 30`, `multiPV: min 1 max 10`, `movetimeMs: min 0`). -/
def fieldErrors (b : RawBody) : List String :=
  (match b.depth with
   | some d => if 1 ≤ d ∧ d ≤ 30 then [] else ["depth"]
   | none => []) ++
  (match b.multiPV with
   | some m => if 1 ≤ m ∧ m ≤ 10 then [] else ["multiPV"]
   | none => []) ++
  (match b.movetimeMs with
   | some t => if 0 ≤ t then [] else ["movetimeMs"]
   | none => [])

/-- Model of `AnalysisRequestSchema.safeParse` on a well-typed body: reject
when any range constraint fails, otherwise apply the defaults
(`depth 14`, `multiPV 1`, `movetimeMs 0`). -/
def safeParseBody (b : RawBody) : Except (List String) AnalysisRequest :=
  if fieldErrors b = [] then
    Except.ok
      { fen := b.fen, moves := b.moves, depth := b.depth.getD 14,
        multiPV := b.multiPV.getD 1, movetimeMs := b.movetimeMs.getD 0 }
  else Except.error (fieldErrors b)

/-- The `position …` command `analyze` writes for a validated request. -/
def positionCommandOf (req : AnalysisRequest) : String :=
  let fenInput := jsTrim (req.fen.getD "")
  let base :=
    if fenInput == "" || jsToLower fenInput == "startpos" then "position startpos"
    else "position fen " ++ fenInput
  match req.moves with
  | some ms => if 0 < ms.length then base ++ " moves " ++ jsJoin " " ms else base
  | none => base

/-- The `go …` command `analyze` sends for a validated request. -/
def goCommandOf (req : AnalysisRequest) : String :=
  let g :=
    if 0 < req.movetimeMs then "go movetime " ++ toString req.movetimeMs
    else "go depth " ++ toString req.depth
  if 1 < req.multiPV then g ++ " multipv " ++ toString req.multiPV else g

/-- Observable outcome of `analyzeHandler` up to the engine conversation:
HTTP status, error kind, and the commands written to the engine. -/
structure AnalyzeOutcome where
  status : Nat
  errorKind : Option String
  engineCommands : List String
deriving DecidableEq, Repr

/-- The validation and dispatch structure of `analyzeHandler`: a failed
`safeParse` answers 400 with `validation_error` before anything is sent to the
engine; a successful one reaches `analyze`, which writes the position command
and then the go command. -/
def analyzeHandlerV (b : RawBody) : AnalyzeOutcome :=
  match safeParseBody b with
  | Except.error _ => ⟨400, some "validation_error", []⟩
  | Except.ok req => ⟨200, none, [positionCommandOf req, goCommandOf req]⟩

/-- Status reported by the health endpoint. -/
inductive HealthStatus
  | healthy
  | unhealthy
  | serverError
deriving DecidableEq, Repr

/-- Response of the health endpoint. -/
structure HealthResponse where
  code : Nat
  status : HealthStatus
  version : Option String
  errMsg : Option String
deriving DecidableEq, Repr

/-- Structure of `healthHandler`, with the outcomes of the effectful calls
(`checkReady`, `initialize`, `getVersion`) passed in: when not ready, a failed
lazy init (or version fetch) answers 503 unhealthy; otherwise 200 healthy with
the version `getVersion` returned; a failure on the already-ready path hits
the outer catch and answers 500. -/
def healthHandler (ready : Bool) (initResult : Except String Unit)
    (versionResult : Except String String) : HealthResponse :=
  if !ready then
    match initResult with
    | Except.error e => ⟨503, HealthStatus.unhealthy, none, some e⟩
    | Except.ok _ =>
      match versionResult with
      | Except.error e => ⟨503, HealthStatus.unhealthy, none, some e⟩
      | Except.ok v => ⟨200, HealthStatus.healthy, some v, none⟩
  else
    match versionResult with
    | Except.error e => ⟨500, HealthStatus.serverError, none, some e⟩
    | Except.ok v => ⟨200, HealthStatus.healthy, some v, none⟩

/-- Spec-side reading of the schema's valid region: every present numeric
field lies in its documented range (`depth` 1-30, `multiPV` 1-10,
`movetimeMs` >= 0).  Used to compare the schema's accept/reject behaviour
against the spec sentence. -/
def bodyInRange (b : RawBody) : Prop :=
  (∀ d ∈ b.depth, 1 ≤ d ∧ d ≤ 30) ∧ (∀ m ∈ b.multiPV, 1 ≤ m ∧ m ≤ 10) ∧
  (∀ t ∈ b.movetimeMs, 0 ≤ t)

/-! ## Lemmas about the response matcher -/

namespace StockfishProcess

/-- The downward scan of the reversed queue returns the first match of the
reversed list: the scanned prefix before it contains no match, and exactly
that element is removed. -/
theorem scanResolveRev_some (line : String) (l : List StockfishMessage) :
    ∀ m : StockfishMessage,
      (scanResolveRev l line).2 = some m →
      ∃ a b, l = a ++ m :: b ∧ (scanResolveRev l line).1 = a ++ b ∧
        matchesLine m.command line (firstWordOf line) = true ∧
        ∀ x ∈ a, matchesLine x.command line (firstWordOf line) = false := by
  induction l with
  | nil => intro m h; simp [scanResolveRev] at h
  | cons m' rest ih =>
    intro m h
    by_cases hm : matchesLine m'.command line (firstWordOf line) = true
    · simp only [scanResolveRev, hm, if_true] at h ⊢
      cases h
      exact ⟨[], rest, rfl, rfl, hm, by simp⟩
    · simp only [scanResolveRev, hm, if_false] at h ⊢
      obtain ⟨a, b, hl, hq, hmm, hnone⟩ := ih m h
      refine ⟨m' :: a, b, by simp [hl], by simp [hq], hmm, ?_⟩
      intro x hx
      rcases List.mem_cons.mp hx with hx | hx
      · subst hx; simpa using hm
      · exact hnone x hx

end StockfishProcess

/-- C7: the claim says the earliest-enqueued matching pending command is
resolved; on the code both the pending `go` and the pending `quit` command
match the `bestmove` line, and the later-enqueued `quit` is the one resolved
and removed. -/
theorem C7_counterexample :
    StockfishProcess.scanResolve
        [⟨"go depth 14", 0⟩, ⟨"quit", 1⟩] "bestmove e2e4" =
      ([⟨"go depth 14", 0⟩], some ⟨"quit", 1⟩) ∧
    StockfishProcess.matchesLine "go depth 14" "bestmove e2e4"
        (firstWordOf "bestmove e2e4") = true := by
  exact ⟨by decide, by decide⟩

/-- C7 (amended): when several pending commands match an output line,
`handleOutput` resolves the last (most recently enqueued) matching one,
removes exactly it from the queue, and resolves only that one command for the
line: every queue entry after the resolved one fails the match. -/
theorem C7_resolves_latest_match (queue : List StockfishProcess.StockfishMessage)
    (line : String) (m : StockfishProcess.StockfishMessage)
    (h : (StockfishProcess.scanResolve queue line).2 = some m) :
    ∃ pre post, queue = pre ++ m :: post ∧
      (StockfishProcess.scanResolve queue line).1 = pre ++ post ∧
      StockfishProcess.matchesLine m.command line (firstWordOf line) = true ∧
      ∀ x ∈ post, StockfishProcess.matchesLine x.command line (firstWordOf line) = false := by
  have h2 : (StockfishProcess.scanResolveRev queue.reverse line).2 = some m := h
  obtain ⟨a, b, hl, hq, hmm, hnone⟩ :=
    StockfishProcess.scanResolveRev_some line queue.reverse m h2
  refine ⟨b.reverse, a.reverse, ?_, ?_, hmm, ?_⟩
  · have := congrArg List.reverse hl
    simpa [List.reverse_append] using this
  · show (StockfishProcess.scanResolveRev queue.reverse line).1.reverse = _
    rw [hq]
    simp [List.reverse_append]
  · intro x hx
    exact hnone x (List.mem_reverse.mp hx)

/-- C7 witness: a concrete queue where the single matching entry is resolved,
instantiating the amended matcher characterization. -/
theorem C7_resolves_latest_match_witness :
    (StockfishProcess.scanResolve [⟨"uci", 0⟩, ⟨"isready", 1⟩] "uciok").2 =
      some ⟨"uci", 0⟩ ∧
    ∃ pre post,
      [(⟨"uci", 0⟩ : StockfishProcess.StockfishMessage), ⟨"isready", 1⟩] = pre ++ ⟨"uci", 0⟩ :: post ∧
      (StockfishProcess.scanResolve [⟨"uci", 0⟩, ⟨"isready", 1⟩] "uciok").1 = pre ++ post ∧
      StockfishProcess.matchesLine "uci" "uciok" (firstWordOf "uciok") = true ∧
      ∀ x ∈ post, StockfishProcess.matchesLine x.command "uciok" (firstWordOf "uciok") = false :=
  ⟨by decide, C7_resolves_latest_match [⟨"uci", 0⟩, ⟨"isready", 1⟩] "uciok" ⟨"uci", 0⟩ (by decide)⟩

/-- C1: the claim says the supervisor marks its state `Terminated` and
rejects every pending command with an `EngineCrashed` error on unexpected
exit.  The code's exit listener only clears `isReady` and the process handle:
it rejects no pending command and leaves the queue untouched (this evaluates
the exit listener at an arbitrary state, covering the failing input of a
pending search). -/
theorem C1_exit_leaves_pending_unrejected (s : StockfishProcess.SupervisorState) :
    (StockfishProcess.onProcessExit s).2 = [] ∧
    (StockfishProcess.onProcessExit s).1.messageQueue = s.messageQueue ∧
    (StockfishProcess.onProcessExit s).1.isReady = false ∧
    (StockfishProcess.onProcessExit s).1.processAlive = false :=
  ⟨rfl, rfl, rfl, rfl⟩

/-- C2: the claim says a timed-out search both rejects the waiting caller and
writes `stop` to the engine.  The code's timeout callback rejects the caller
with the timeout error and removes the pending command, but its list of
writes to the engine's stdin is empty — no `stop` is ever sent. -/
theorem C2_timeout_rejects_but_never_sends_stop
    (queue : List StockfishProcess.StockfishMessage) (command : String) :
    (StockfishProcess.onCommandTimeout queue command).stdinWrites = [] ∧
    (StockfishProcess.onCommandTimeout queue command).rejectedError =
      some ("Timeout waiting for response to: " ++ command) ∧
    (StockfishProcess.onCommandTimeout queue command).queueAfter =
      (match queue.findIdx? (fun m => m.command == command) with
       | some i => queue.eraseIdx i
       | none => queue) :=
  ⟨rfl, rfl, rfl⟩

/-- C3: the claim says `/health` reports the engine's self-announced
`id name` string.  On the code, the pending `uci` command resolves with the
single terminal line `uciok` (not the accumulated output), `getVersion` finds
no `id name` in it and falls back to `Unknown`, so the healthy response
carries version `Unknown` and never the engine's id string. -/
theorem C3_health_version_is_unknown :
    StockfishProcess.uciResolutionValue "id name Stockfish 16\nuciok\n" = some "uciok" ∧
    StockfishProcess.parseVersionFromResponse "uciok" = "Unknown" ∧
    healthHandler true (Except.ok ())
        (Except.ok (StockfishProcess.parseVersionFromResponse "uciok")) =
      ⟨200, HealthStatus.healthy, some "Unknown", none⟩ ∧
    "Unknown" ≠ "Stockfish 16" :=
  ⟨by decide, by decide, by decide, by decide⟩

/-- C6: the timeout `analyze` passes to `sendCommand` for the search command
equals `max 30000 movetimeMs` for every requested `movetimeMs`, and the two
initialization commands (`uci` identification and `isready` readiness check)
are awaited with a 5000 ms timeout. -/
theorem C6_search_and_init_timeouts :
    (∀ movetimeMs : Nat,
      StockfishProcess.goCommandTimeout movetimeMs = max 30000 movetimeMs) ∧
    StockfishProcess.initCommands = [("uci", 5000), ("isready", 5000)] := by
  constructor
  · intro m
    unfold StockfishProcess.goCommandTimeout
    by_cases h : m = 0 <;> simp [h]
  · rfl

/-- C8: the claim says a pending `quit` resolves immediately upon being sent,
with no output required.  On the code, sending `quit` only enqueues it; with
no engine output the queue is unchanged (still pending); its match rule fires
on any output line whatsoever, and if none arrives the timeout callback
rejects it — so resolution does require an output line. -/
theorem C8_quit_requires_an_output_line :
    StockfishProcess.sendCommandEnqueue [] "quit" 0 = [⟨"quit", 0⟩] ∧
    StockfishProcess.handleOutput ⟨[⟨"quit", 0⟩], "", []⟩ "" = ⟨[⟨"quit", 0⟩], "", []⟩ ∧
    (∀ line firstWord : String,
      StockfishProcess.matchesLine "quit" line firstWord = true) ∧
    (StockfishProcess.onCommandTimeout [⟨"quit", 0⟩] "quit").rejectedError =
      some "Timeout waiting for response to: quit" ∧
    (StockfishProcess.onCommandTimeout [⟨"quit", 0⟩] "quit").queueAfter = [] := by
  refine ⟨by decide, by decide, ?_, by decide, by decide⟩
  intro line firstWord
  simp [StockfishProcess.matchesLine, jsStartsWith, stripLit]

/-! ## Lemmas about the output parser -/

namespace UciParser

/-- One parse step leaves `evaluation` equal to the latest-score step: a
`bestmove` line never touches it, an `info` line overwrites it exactly when
the score regex matches. -/
theorem processParseLine_evaluation (st : ParseState) (line : String) :
    (processParseLine st line).evaluation =
      (if jsStartsWith line "bestmove" then st.evaluation
       else if jsStartsWith line "info" then
         match matchScore line with
         | some (t, v) => (⟨t, v⟩ : Evaluation)
         | none => st.evaluation
       else st.evaluation) := by
  by_cases h1 : jsStartsWith line "bestmove" = true
  · simp only [processParseLine, h1, if_true]
    cases matchBestmove line with
    | none => rfl
    | some p => cases p; rfl
  · by_cases h2 : jsStartsWith line "info" = true
    · simp only [processParseLine, h1, h2, if_true, if_false, Bool.false_eq_true]
    · simp only [processParseLine, h1, h2, if_false, Bool.false_eq_true]

/-- Over the whole scan, the `evaluation` variable equals the latest score
seen in the text. -/
theorem parseStateOf_evaluation (output : String) :
    (parseStateOf output).evaluation = lastScore output := by
  unfold parseStateOf lastScore
  generalize parserLines output = ls
  have h : initParseState.evaluation = ⟨EvalType.cp, 0⟩ := rfl
  rw [← h]
  generalize initParseState = st
  induction ls generalizing st with
  | nil => rfl
  | cons l rest ih =>
    rw [List.foldl_cons, List.foldl_cons, ih]
    congr 1
    rw [processParseLine_evaluation]

/-- A line that does not start with `bestmove` leaves `bestMove` and `ponder`
untouched. -/
theorem processParseLine_bestMove (st : ParseState) (line : String)
    (h : jsStartsWith line "bestmove" = false) :
    (processParseLine st line).bestMove = st.bestMove ∧
    (processParseLine st line).ponder = st.ponder := by
  by_cases h2 : jsStartsWith line "info" = true <;>
    simp [processParseLine, h, h2]

/-- With no `bestmove` line in the raw text, the scan ends with the initial
empty `bestMove` and `ponder`. -/
theorem parseStateOf_no_bestmove (output : String)
    (h : ∀ l ∈ parserLines output, jsStartsWith l "bestmove" = false) :
    (parseStateOf output).bestMove = "" ∧ (parseStateOf output).ponder = "" := by
  suffices hgen : ∀ (ls : List String) (st : ParseState),
      (∀ l ∈ ls, jsStartsWith l "bestmove" = false) →
      (ls.foldl processParseLine st).bestMove = st.bestMove ∧
      (ls.foldl processParseLine st).ponder = st.ponder by
    exact hgen (parserLines output) initParseState h
  intro ls
  induction ls with
  | nil => exact fun st _ => ⟨rfl, rfl⟩
  | cons l rest ih =>
    intro st hall
    rw [List.foldl_cons]
    have hl := hall l (List.mem_cons_self l rest)
    have hrest : ∀ x ∈ rest, jsStartsWith x "bestmove" = false :=
      fun x hx => hall x (List.mem_cons_of_mem l hx)
    obtain ⟨hb, hp⟩ := processParseLine_bestMove st l hl
    obtain ⟨ih1, ih2⟩ := ih (processParseLine st l) hrest
    exact ⟨ih1.trans hb, ih2.trans hp⟩

end UciParser

/-- C9: when the scan found no principal-variation entry but a best move
exists, `parseAnalysis` synthesizes exactly one line, whose `pv` is the best
move alone and whose `eval` is the latest overall score seen in the text. -/
theorem C9_synthesized_single_line (output : String) (t : Nat)
    (h1 : (UciParser.parseStateOf output).linesMap = [])
    (h2 : (UciParser.parseStateOf output).bestMove ≠ "") :
    (UciParser.parseAnalysis output t).lines =
      [⟨[(UciParser.parseStateOf output).bestMove], UciParser.lastScore output⟩] := by
  have hbe : ((UciParser.parseStateOf output).bestMove == "") = false :=
    beq_eq_false_iff_ne.mpr h2
  simp only [UciParser.parseAnalysis, h1, UciParser.sortByKey, List.foldr_nil, List.map_nil,
    List.isEmpty_nil, hbe, Bool.not_false, Bool.true_and, if_true]
  rw [UciParser.parseStateOf_evaluation]

/-- C9 witness: a depth-1 style output with a score but no pv entry yields
the synthesized single line. -/
theorem C9_synthesized_single_line_witness :
    (UciParser.parseAnalysis "info depth 1 score cp 25\nbestmove e2e4\n" 3).lines =
      [⟨[(UciParser.parseStateOf "info depth 1 score cp 25\nbestmove e2e4\n").bestMove],
        UciParser.lastScore "info depth 1 score cp 25\nbestmove e2e4\n"⟩] :=
  C9_synthesized_single_line "info depth 1 score cp 25\nbestmove e2e4\n" 3
    (by decide) (by decide)

/-- C10: the claim says that with no `bestmove` line the result has an empty
`lines` array and all-zero statistics; on the code an `info` line alone
already yields a nonempty `lines` array and a nonzero depth. -/
theorem C10_counterexample :
    (UciParser.parseAnalysis "info depth 5 score cp 10 pv e2e4" 0).statistics.depth = 5 ∧
    (UciParser.parseAnalysis "info depth 5 score cp 10 pv e2e4" 0).lines =
      [⟨["e2e4"], ⟨EvalType.cp, 10⟩⟩] := by
  exact ⟨by decide, by decide⟩

/-- C10 (amended): with no `bestmove` line, `parseAnalysis` still returns a
well-formed response: `bestMove` is the empty string, `ponder` is absent,
`evaluation` is the latest score seen (`cp 0` when none appeared), and no
entry is synthesized — `lines` is exactly the multi-PV map content sorted
ascending by line index (statistics stay the running maxima of whatever
matched, `0` when nothing did). -/
theorem C10_no_bestmove_parse (output : String) (t : Nat)
    (h : ∀ l ∈ parserLines output, jsStartsWith l "bestmove" = false) :
    (UciParser.parseAnalysis output t).bestMove = "" ∧
    (UciParser.parseAnalysis output t).ponder = none ∧
    (UciParser.parseAnalysis output t).evaluation = UciParser.lastScore output ∧
    (UciParser.parseAnalysis output t).lines =
      (UciParser.sortByKey (UciParser.parseStateOf output).linesMap).map (fun p => p.2) := by
  obtain ⟨hb, hp⟩ := UciParser.parseStateOf_no_bestmove output h
  have hbe : ((UciParser.parseStateOf output).bestMove == "") = true := by
    rw [hb]; decide
  refine ⟨?_, ?_, ?_, ?_⟩
  · simpa only [UciParser.parseAnalysis] using hb
  · simp only [UciParser.parseAnalysis, hp]
    decide
  · simp only [UciParser.parseAnalysis]
    exact UciParser.parseStateOf_evaluation output
  · simp [UciParser.parseAnalysis, hbe]

/-- C10 witness: a single `info` line with no `bestmove` line, instantiating
the amended parse characterization. -/
theorem C10_no_bestmove_parse_witness :
    (UciParser.parseAnalysis "info depth 5 score cp 10 pv e2e4" 4).bestMove = "" ∧
    (UciParser.parseAnalysis "info depth 5 score cp 10 pv e2e4" 4).ponder = none ∧
    (UciParser.parseAnalysis "info depth 5 score cp 10 pv e2e4" 4).evaluation =
      UciParser.lastScore "info depth 5 score cp 10 pv e2e4" ∧
    (UciParser.parseAnalysis "info depth 5 score cp 10 pv e2e4" 4).lines =
      (UciParser.sortByKey
        (UciParser.parseStateOf "info depth 5 score cp 10 pv e2e4").linesMap).map
        (fun p => p.2) :=
  C10_no_bestmove_parse "info depth 5 score cp 10 pv e2e4" 4 (by decide)

namespace UciParser

/-- Ascending insertion permutes: inserting is the same multiset as consing. -/
theorem insertByKey_perm (p : Nat × PvLine) (l : List (Nat × PvLine)) :
    List.Perm (insertByKey p l) (p :: l) := by
  induction l with
  | nil => exact List.Perm.refl _
  | cons q rest ih =>
    by_cases h : p.1 ≤ q.1
    · simp only [insertByKey, h, if_true]
      exact List.Perm.refl _
    · simp only [insertByKey, h, if_false]
      exact (ih.cons q).trans (List.Perm.swap p q rest)

/-- The insertion sort of the multi-PV map entries permutes the entries. -/
theorem sortByKey_perm (m : List (Nat × PvLine)) : List.Perm (sortByKey m) m := by
  induction m with
  | nil => exact List.Perm.refl _
  | cons p rest ih =>
    exact (insertByKey_perm p (sortByKey rest)).trans (ih.cons p)

/-- Ascending insertion preserves sortedness by key. -/
theorem insertByKey_pairwise (p : Nat × PvLine) (l : List (Nat × PvLine))
    (h : l.Pairwise (fun a b => a.1 ≤ b.1)) :
    (insertByKey p l).Pairwise (fun a b => a.1 ≤ b.1) := by
  induction l with
  | nil => simp [insertByKey]
  | cons q rest ih =>
    rcases List.pairwise_cons.mp h with ⟨hq, hrest⟩
    by_cases hle : p.1 ≤ q.1
    · simp only [insertByKey, hle, if_true]
      refine List.pairwise_cons.mpr ⟨?_, h⟩
      intro x hx
      rcases List.mem_cons.mp hx with hx | hx
      · subst hx; exact hle
      · exact hle.trans (hq x hx)
    · simp only [insertByKey, hle, if_false]
      refine List.pairwise_cons.mpr ⟨?_, ih hrest⟩
      intro x hx
      have hx2 : x ∈ p :: rest := (insertByKey_perm p rest).mem_iff.mp hx
      rcases List.mem_cons.mp hx2 with hx2 | hx2
      · subst hx2; omega
      · exact hq x hx2

/-- The sorted multi-PV entries are ascending by key. -/
theorem sortByKey_pairwise (m : List (Nat × PvLine)) :
    (sortByKey m).Pairwise (fun a b => a.1 ≤ b.1) := by
  induction m with
  | nil => simp [sortByKey]
  | cons p rest ih => exact insertByKey_pairwise p (sortByKey rest) ih

/-- `Map.prototype.set` on an existing key keeps the key sequence unchanged. -/
theorem mapSet_keys_of_mem (m : List (Nat × PvLine)) (k : Nat) (v : PvLine)
    (h : m.any (fun p => p.1 = k) = true) :
    (mapSet m k v).map Prod.fst = m.map Prod.fst := by
  simp only [mapSet, h, if_true, List.map_map]
  refine List.map_congr_left ?_
  intro p _
  by_cases hp : p.1 = k
  · simp [Function.comp, hp]
  · simp [Function.comp, hp]

/-- `Map.prototype.set` keeps the keys distinct. -/
theorem mapSet_keys_nodup (m : List (Nat × PvLine)) (k : Nat) (v : PvLine)
    (h : (m.map Prod.fst).Nodup) : ((mapSet m k v).map Prod.fst).Nodup := by
  by_cases hmem : m.any (fun p => p.1 = k) = true
  · rw [mapSet_keys_of_mem m k v hmem]; exact h
  · have hnot : ∀ p ∈ m, p.1 ≠ k := by
      intro p hp
      by_contra hc
      exact hmem (List.any_eq_true.mpr ⟨p, hp, by simp [hc]⟩)
    simp only [mapSet, if_neg hmem, List.map_append, List.map_cons, List.map_nil]
    rw [List.nodup_append]
    refine ⟨h, List.nodup_singleton k, ?_⟩
    intro a ha hb
    rcases List.mem_map.mp ha with ⟨p, hp, rfl⟩
    rcases List.mem_singleton.mp hb with rfl
    exact hnot p hp rfl

/-- One parse step either keeps the multi-PV map or performs one `set`. -/
theorem processParseLine_linesMap (st : ParseState) (line : String) :
    (processParseLine st line).linesMap = st.linesMap ∨
    ∃ k v, (processParseLine st line).linesMap = mapSet st.linesMap k v := by
  by_cases h1 : jsStartsWith line "bestmove" = true
  · left
    simp only [processParseLine, h1, if_true]
    cases matchBestmove line with
    | none => rfl
    | some p => cases p; rfl
  · by_cases h2 : jsStartsWith line "info" = true
    · simp only [processParseLine, h1, h2, if_true, if_false, Bool.false_eq_true]
      cases hpv : matchPvCapture line with
      | none => left; rfl
      | some cap => right; exact ⟨_, _, rfl⟩
    · left
      simp only [processParseLine, h1, h2, if_false, Bool.false_eq_true]

/-- Throughout the scan, the keys of the multi-PV map stay distinct. -/
theorem parseStateOf_keys_nodup (output : String) :
    ((parseStateOf output).linesMap.map Prod.fst).Nodup := by
  unfold parseStateOf
  suffices hgen : ∀ (ls : List String) (st : ParseState),
      (st.linesMap.map Prod.fst).Nodup →
      ((ls.foldl processParseLine st).linesMap.map Prod.fst).Nodup by
    exact hgen (parserLines output) initParseState (by simp [initParseState])
  intro ls
  induction ls with
  | nil => exact fun st h => h
  | cons l rest ih =>
    intro st h
    rw [List.foldl_cons]
    refine ih (processParseLine st l) ?_
    rcases processParseLine_linesMap st l with heq | ⟨k, v, heq⟩
    · rw [heq]; exact h
    · rw [heq]; exact mapSet_keys_nodup st.linesMap k v h

end UciParser

/-- C5: the claim bounds the `lines` array by the requested count for every
raw text; the parser never receives the requested count and does not
truncate, so a text carrying more line indices than requested (here two,
with `multiPV = 1` requested) exceeds the bound. -/
theorem C5_counterexample :
    ¬ (UciParser.parseAnalysis
        "info multipv 1 pv e2e4\ninfo multipv 2 pv d2d4\nbestmove e2e4" 0).lines.length ≤ 1 := by
  decide

/-- C5 (amended): the multi-PV entries are sorted strictly ascending by the
engine's line index, and whenever every line index found in the text lies in
`1 … N` (which the engine guarantees when asked for `N` lines) the response's
`lines` array has length at most `N`. -/
theorem C5_sorted_and_bounded (output : String) (timingMs N : Nat)
    (hN : 1 ≤ N)
    (hkeys : ∀ k ∈ (UciParser.parseStateOf output).linesMap.map Prod.fst, 1 ≤ k ∧ k ≤ N) :
    List.Pairwise (fun a b => a < b)
      ((UciParser.sortByKey (UciParser.parseStateOf output).linesMap).map Prod.fst) ∧
    (UciParser.parseAnalysis output timingMs).lines.length ≤ N := by
  have hnd0 := UciParser.parseStateOf_keys_nodup output
  constructor
  · have hperm :
        List.Perm ((UciParser.sortByKey (UciParser.parseStateOf output).linesMap).map Prod.fst)
          ((UciParser.parseStateOf output).linesMap.map Prod.fst) :=
      (UciParser.sortByKey_perm _).map Prod.fst
    have hnd : ((UciParser.sortByKey (UciParser.parseStateOf output).linesMap).map Prod.fst).Nodup :=
      hperm.nodup_iff.mpr hnd0
    have hle : ((UciParser.sortByKey (UciParser.parseStateOf output).linesMap).map Prod.fst).Pairwise
        (fun a b => a ≤ b) := by
      rw [List.pairwise_map]
      exact UciParser.sortByKey_pairwise _
    exact (hle.and hnd).imp (fun h => lt_of_le_of_ne h.1 h.2)
  · have hkeylen : ((UciParser.parseStateOf output).linesMap.map Prod.fst).length ≤ N := by
      have hsub : ((UciParser.parseStateOf output).linesMap.map Prod.fst).toFinset ⊆
          Finset.Icc 1 N := by
        intro k hk
        rcases hkeys k (List.mem_toFinset.mp hk) with ⟨h1, h2⟩
        exact Finset.mem_Icc.mpr ⟨h1, h2⟩
      calc ((UciParser.parseStateOf output).linesMap.map Prod.fst).length
          = ((UciParser.parseStateOf output).linesMap.map Prod.fst).toFinset.card :=
            (List.toFinset_card_of_nodup hnd0).symm
        _ ≤ (Finset.Icc 1 N).card := Finset.card_le_card hsub
        _ = N := by rw [Nat.card_Icc]; omega
    have hmlen : (UciParser.parseStateOf output).linesMap.length ≤ N := by
      simpa using hkeylen
    by_cases hcond :
        (((UciParser.sortByKey (UciParser.parseStateOf output).linesMap).map
            (fun p => p.2)).isEmpty &&
          !((UciParser.parseStateOf output).bestMove == "")) = true
    · simp only [UciParser.parseAnalysis]
      rw [if_pos hcond]
      simpa using hN
    · simp only [UciParser.parseAnalysis]
      rw [if_neg hcond]
      rw [List.length_map, (UciParser.sortByKey_perm _).length_eq]
      exact hmlen

/-- C5 witness: a two-line multi-PV text with requested count 2,
instantiating the amended sortedness and length bound. -/
theorem C5_sorted_and_bounded_witness :
    List.Pairwise (fun a b => a < b)
      ((UciParser.sortByKey
        (UciParser.parseStateOf
          "info multipv 1 pv e2e4\ninfo multipv 2 pv d2d4\nbestmove e2e4").linesMap).map
        Prod.fst) ∧
    (UciParser.parseAnalysis
        "info multipv 1 pv e2e4\ninfo multipv 2 pv d2d4\nbestmove e2e4" 0).lines.length ≤ 2 :=
  C5_sorted_and_bounded "info multipv 1 pv e2e4\ninfo multipv 2 pv d2d4\nbestmove e2e4" 0 2
    (by decide) (by decide)

/-- The schema accepts a well-typed body exactly when every present numeric
field is in range. -/
theorem fieldErrors_nil_iff (b : RawBody) : fieldErrors b = [] ↔ bodyInRange b := by
  obtain ⟨f, mv, d, mp, mt⟩ := b
  cases d <;> cases mp <;> cases mt <;>
    simp [fieldErrors, bodyInRange]

/-- C4: the claim says out-of-range fields are clamped into range; on the
code a body with `depth = 31` is rejected by the schema (there is no
clamping), the response is 400 with kind `validation_error`, and nothing is
written to the engine. -/
theorem C4_counterexample :
    safeParseBody ⟨none, none, some 31, none, none⟩ = Except.error ["depth"] ∧
    analyzeHandlerV ⟨none, none, some 31, none, none⟩ = ⟨400, some "validation_error", []⟩ := by
  exact ⟨by rfl, by decide⟩

/-- C4 (amended): the body is validated, not clamped: a well-typed body is
accepted exactly when every present numeric field lies in its range
(`depth` 1-30, `multiPV` 1-10, `movetimeMs` >= 0), with the defaults
(14, 1, 0) applied for absent fields, after which the position and go
commands are sent; any out-of-range field yields a 400 response of kind
`validation_error` with no command sent to the engine. -/
theorem C4_validation_not_clamped (b : RawBody) :
    (bodyInRange b →
      analyzeHandlerV b =
        ⟨200, none,
         [positionCommandOf
            ⟨b.fen, b.moves, b.depth.getD 14, b.multiPV.getD 1, b.movetimeMs.getD 0⟩,
          goCommandOf
            ⟨b.fen, b.moves, b.depth.getD 14, b.multiPV.getD 1, b.movetimeMs.getD 0⟩]⟩) ∧
    (¬ bodyInRange b →
      analyzeHandlerV b = ⟨400, some "validation_error", []⟩) := by
  constructor
  · intro hin
    have he : fieldErrors b = [] := (fieldErrors_nil_iff b).mpr hin
    simp only [analyzeHandlerV, safeParseBody, he, if_pos]
  · intro hout
    have he : ¬ fieldErrors b = [] := fun h => hout ((fieldErrors_nil_iff b).mp h)
    simp only [analyzeHandlerV, safeParseBody, if_neg he]

/-- C4 witness: the empty body is in range, takes all three defaults, and
produces the default engine conversation. -/
theorem C4_validation_not_clamped_witness :
    bodyInRange ⟨none, none, none, none, none⟩ ∧
    analyzeHandlerV ⟨none, none, none, none, none⟩ =
      ⟨200, none, ["position startpos", "go depth 14"]⟩ := by
  have hin : bodyInRange ⟨none, none, none, none, none⟩ := by
    simp [bodyInRange]
  refine ⟨hin, ?_⟩
  have h := (C4_validation_not_clamped ⟨none, none, none, none, none⟩).1 hin
  exact h.trans (by decide)
